import Mathlib

/-!
Shallow embedding of the catalog-cache subsystem of cosmic-store
(src/appstream_cache.rs, src/app_info.rs).

Filesystem reads, gzip decompression and third-party decoders
(`xmltree::Element::parse`, `Component::try_from`, `serde_yaml`,
`bitcode::decode`) are modelled as explicit parameters carrying their
outcome; everything the repository's own code does with those outcomes is
translated function by function.  Machine integers (`u32`, `u64`) carry no
arithmetic here beyond `min` and comparisons, so they are modelled as `Nat`
(with the `u64 -> u32` conversion made explicit where the source performs
it).
-/

namespace CosmicStore

/-- `appstream::TranslatableString`: third-party type, modelled by its two
observations used in `app_info.rs` (`get_for_locale`, `get_default`). -/
structure TranslatableString where
  get_for_locale : String → Option String
  get_default : Option String

/-- `std::path::PathBuf` as used by `appstream::enums::Icon::Cached`:
`to_str` can fail on non-UTF-8 paths, so the model carries that
observation directly. -/
structure RsPathBuf where
  to_str : Option String

/-- `appstream::enums::Icon` (the variants `app_info.rs` matches on, plus a
representative for the catch-all `_`). -/
inductive Icon where
  | Cached (path : RsPathBuf) (width : Option Nat) (height : Option Nat)
      (scale : Option Nat)
  | Stock (name : String)
  | Remote (url : String)
  | Local (path : RsPathBuf)

/-- `appstream::enums::Launchable` (the `DesktopId` variant `app_info.rs`
keeps, plus a representative for the catch-all `_`). -/
inductive Launchable where
  | DesktopId (desktop_id : String)
  | Service (name : String)

/-- `appstream::enums::ComponentKind` (the variant the parser keeps plus
representatives of the others). -/
inductive ComponentKind where
  | DesktopApplication
  | Font
  | Driver
  | Firmware
  | Generic
deriving DecidableEq

/-- `appstream::Component`: the fields read by `app_info.rs` and
`appstream_cache.rs`. `component.id.to_string()` is modelled by storing the
id as a `String`. -/
structure Component where
  id : String
  kind : ComponentKind
  name : TranslatableString
  summary : Option TranslatableString
  pkgname : Option String
  icons : List Icon
  launchables : List Launchable

/-- `app_info.rs::get_translatable`. -/
def get_translatable (translatable : TranslatableString) (locale : String) :
    String :=
  match translatable.get_for_locale locale with
  | some s => s
  | none =>
    match translatable.get_default with
    | some s => s
    | none => ""

/-- `app_info.rs::AppIcon`. -/
inductive AppIcon where
  | Cached (name : String) (width : Option Nat) (height : Option Nat)
      (scale : Option Nat)
  | Stock (name : String)
deriving DecidableEq

/-- `app_info.rs::AppInfo`. -/
structure AppInfo where
  origin_opt : Option String
  name : String
  summary : String
  pkgname : Option String
  icons : List AppIcon
  desktop_ids : List String
deriving DecidableEq

/-- `app_info.rs::AppInfo::new`. -/
def AppInfo.new (origin_opt : Option String) (component : Component)
    (locale : String) : AppInfo :=
  let name := get_translatable component.name locale
  let summary :=
    match component.summary with
    | some x => get_translatable x locale
    | none => ""
  let icons := component.icons.filterMap fun icon =>
    match icon with
    | .Cached path width height scale =>
      match path.to_str with
      | some s => some (AppIcon.Cached s width height scale)
      | none => none
    | .Stock path => some (AppIcon.Stock path)
    | _ => none
  let desktop_ids := component.launchables.filterMap fun launchable =>
    match launchable with
    | .DesktopId desktop_id => some desktop_id
    | _ => none
  { origin_opt := origin_opt
    name := name
    summary := summary
    pkgname := component.pkgname
    icons := icons
    desktop_ids := desktop_ids }

/-- `appstream_cache.rs::AppstreamCacheTag`. -/
structure AppstreamCacheTag where
  modified : Nat
  size : Nat
deriving DecidableEq

/-- `appstream_cache.rs::AppstreamCache`.  `BTreeMap`/`HashMap`/`HashSet`
are modelled as association lists (insert-or-replace keeps keys unique);
paths are strings. -/
structure AppstreamCache where
  path_tags : List (String × AppstreamCacheTag)
  icons_paths : List String
  locale : String
  infos : List (String × AppInfo)
  pkgnames : List (String × List String)
deriving DecidableEq

/-- Lookup in an association-list map (`HashMap::get` / `BTreeMap::get`). -/
def mapLookup {α : Type} (m : List (String × α)) (k : String) : Option α :=
  match m with
  | [] => none
  | (k', v) :: rest => if k' = k then some v else mapLookup rest k

/-- `HashMap::insert`: stores the value under the key, returning the
previously stored value when the key was already present (the new value
replaces it). -/
def mapInsert {α : Type} (m : List (String × α)) (k : String) (v : α) :
    List (String × α) × Option α :=
  match m with
  | [] => ([(k, v)], none)
  | (k', v') :: rest =>
    if k' = k then ((k, v) :: rest, some v')
    else
      let (rest', old) := mapInsert rest k v
      ((k', v') :: rest', old)

/-- `HashSet::insert` on a set of strings. -/
def setInsert (s : List String) (x : String) : List String :=
  if x ∈ s then s else s ++ [x]

/-- `cosmic::widget::icon::Handle` as produced by `appstream_cache.rs`:
either `widget::icon::from_path(p)` or
`widget::icon::from_name(n).size(s).handle()`. -/
inductive IconHandle where
  | from_path (path : String)
  | from_name (name : String) (size : Nat)
deriving DecidableEq

/-- `Path::join` on string-modelled paths. -/
def pathJoin (a b : String) : String := a ++ "/" ++ b

/-- `appstream_cache.rs::AppstreamCache::icon_path`.  The filesystem is a
parameter `is_file` telling which paths are existing regular files. -/
def icon_path (is_file : String → Bool) (self : AppstreamCache)
    (origin_opt : Option String) (name : String) (width_opt : Option Nat)
    (height_opt : Option Nat) (scale_opt : Option Nat) : Option String := do
  let origin ← origin_opt
  let width ← width_opt
  let height ← height_opt
  let size :=
    match scale_opt with
    | some scale => s!"{width}x{height}@{scale}"
    | none => s!"{width}x{height}"
  let rec go : List String → Option String
    | [] => none
    | icons_path :: rest =>
      let p := pathJoin (pathJoin (pathJoin icons_path origin) size) name
      if is_file p then some p else go rest
  go self.icons_paths

/-- Loop body of `appstream_cache.rs::AppstreamCache::icon`: iterates the
remaining icon list, carrying `icon_opt` and `cached_size` exactly as the
source's mutable locals. -/
def iconLoop (is_file : String → Bool) (self : AppstreamCache)
    (info : AppInfo) (icon_opt : Option IconHandle) (cached_size : Nat) :
    List AppIcon → Option IconHandle
  | [] => icon_opt
  | info_icon :: rest =>
    match info_icon with
    | .Cached name width height scale =>
      let size := min (width.getD 0) (height.getD 0)
      if size < cached_size then
        -- Skip if size is less than cached size
        iconLoop is_file self info icon_opt cached_size rest
      else
        match icon_path is_file self info.origin_opt name width height scale with
        | some p =>
          iconLoop is_file self info (some (IconHandle.from_path p)) size rest
        | none => iconLoop is_file self info icon_opt cached_size rest
    | .Stock stock =>
      if cached_size ≠ 0 then
        -- Skip if a cached icon was found
        iconLoop is_file self info icon_opt cached_size rest
      else
        iconLoop is_file self info (some (IconHandle.from_name stock 128))
          cached_size rest

/-- `appstream_cache.rs::AppstreamCache::icon`. -/
def icon (is_file : String → Bool) (self : AppstreamCache) (info : AppInfo) :
    IconHandle :=
  (iconLoop is_file self info none 0 info.icons).getD
    (IconHandle.from_name "package-x-generic" 128)

/-- A direct child node of the parsed XML root, as consumed by
`parse_xml`'s `filter_map`.  `Component::try_from` is third-party, so an
element child carries its name together with the outcome of that decode. -/
inductive XMLNode where
  | element (name : String) (try_from : Except String Component)
  | other

/-- The XML root element as consumed by `parse_xml`: its attribute map and
its direct children. -/
structure XMLElement where
  attributes : List (String × String)
  children : List XMLNode

/-- Per-child closure of `parse_xml`'s parallel `filter_map`. -/
def parseXmlChild (origin_opt : Option String) (locale : String) :
    XMLNode → Option (String × AppInfo)
  | .element name try_from =>
    if name = "component" then
      match try_from with
      | .ok component =>
        if component.kind ≠ ComponentKind.DesktopApplication then
          -- Skip anything that is not a desktop application
          none
        else
          some (component.id, AppInfo.new origin_opt component locale)
      | .error _ => none
    else none
  | .other => none

/-- `appstream_cache.rs::AppstreamCache::parse_xml`.  `xmltree::Element::parse`
is third-party, so its outcome is the parameter `root`. -/
def parse_xml (root : Except String XMLElement) (locale : String) :
    Except String (List (String × AppInfo)) :=
  match root with
  | .error err => .error err
  | .ok e =>
    match mapLookup e.attributes "version" with
    | none => .error "missing attribute version of collection"
    | some _version =>
      let origin_opt := mapLookup e.attributes "origin"
      .ok (e.children.filterMap (parseXmlChild origin_opt locale))

/-- A minimal model of `serde_yaml::Value` covering the shapes
`parse_yaml` reads by hand (`as_str`, `as_u64`, `as_sequence`,
`as_mapping`, and string indexing). -/
inductive Yaml where
  | str (s : String)
  | nat (n : Nat)
  | seq (xs : List Yaml)
  | map (entries : List (Yaml × Yaml))
  | null

/-- `serde_yaml::Value::as_str`. -/
def Yaml.as_str : Yaml → Option String
  | .str s => some s
  | _ => none

/-- `serde_yaml::Value::as_u64`. -/
def Yaml.as_u64 : Yaml → Option Nat
  | .nat n => some n
  | _ => none

/-- `serde_yaml::Value::as_sequence`. -/
def Yaml.as_sequence : Yaml → Option (List Yaml)
  | .seq xs => some xs
  | _ => none

/-- `serde_yaml::Value::as_mapping`. -/
def Yaml.as_mapping : Yaml → Option (List (Yaml × Yaml))
  | .map entries => some entries
  | _ => none

/-- `value["key"]` on a `serde_yaml::Value`: mapping lookup by string key,
yielding null when absent or not a mapping. -/
def Yaml.index (v : Yaml) (key : String) : Yaml :=
  match v with
  | .map entries =>
    match entries.find? (fun kv => kv.1.as_str = some key) with
    | some kv => kv.2
    | none => .null
  | _ => .null

/-- `u64::try_into::<u32>().ok()`. -/
def u64_to_u32 (n : Nat) : Option Nat :=
  if n < 2 ^ 32 then some n else none

/-- The `cached` branch of `parse_yaml`'s hand-rolled icon extraction: one
`Icon::Cached` pushed per sequence entry with a string `name`. -/
def yamlCachedIcons (sequence : List Yaml) : List Icon :=
  sequence.filterMap fun cached =>
    match (cached.index "name").as_str with
    | some name =>
      some (Icon.Cached { to_str := some name }
        ((cached.index "width").as_u64.bind u64_to_u32)
        ((cached.index "height").as_u64.bind u64_to_u32)
        ((cached.index "scale").as_u64.bind u64_to_u32))
    | none => none

/-- The icons appended to a component by `parse_yaml`'s `Icon` mapping
walk: `cached` entries with a name become `Icon::Cached`, a string `stock`
becomes `Icon::Stock`, `remote` and everything else contribute nothing. -/
def yamlExtraIcons (value : Yaml) : List Icon :=
  match (value.index "Icon").as_mapping with
  | some icons =>
    icons.flatMap fun kv =>
      match kv.1.as_str with
      | some "cached" =>
        match kv.2.as_sequence with
        | some sequence => yamlCachedIcons sequence
        | none => []
      | some "remote" => []
      | some "stock" =>
        match kv.2.as_str with
        | some stock => [Icon.Stock stock]
        | none => []
      | _ => []
  | none => []

/-- The launchables appended to a component by `parse_yaml`'s `Launchable`
mapping walk: string entries of a `desktop-id` sequence become
`Launchable::DesktopId`; everything else contributes nothing. -/
def yamlExtraLaunchables (value : Yaml) : List Launchable :=
  match (value.index "Launchable").as_mapping with
  | some launchables =>
    launchables.flatMap fun kv =>
      match kv.1.as_str with
      | some "desktop-id" =>
        match kv.2.as_sequence with
        | some sequence =>
          sequence.filterMap fun desktop_id =>
            (desktop_id.as_str).map Launchable.DesktopId
        | none => []
      | _ => []
  | none => []

/-- The in-place extension `parse_yaml` performs on a decoded component
before building its record: push the hand-extracted icons and launchables
onto the component's lists. -/
def yamlAugment (value : Yaml) (component : Component) : Component :=
  { component with
    icons := component.icons ++ yamlExtraIcons value
    launchables := component.launchables ++ yamlExtraLaunchables value }

/-- One YAML document as consumed by `parse_yaml`: the outcome of
`serde_yaml::Value::deserialize` and, when that succeeded, the outcome of
the third-party `Component::deserialize` on that value. -/
inductive YamlDoc where
  | err
  | ok (value : Yaml) (component : Except String Component)

/-- Loop body of `parse_yaml`, carrying the document index and the
`origin_opt` state. -/
def parseYamlGo (locale : String) (doc_i : Nat) (origin_opt : Option String) :
    List YamlDoc → List (String × AppInfo)
  | [] => []
  | doc :: rest =>
    match doc with
    | .err => parseYamlGo locale (doc_i + 1) origin_opt rest
    | .ok value componentRes =>
      if doc_i = 0 then
        parseYamlGo locale (doc_i + 1) ((value.index "Origin").as_str) rest
      else
        match componentRes with
        | .error _ => parseYamlGo locale (doc_i + 1) origin_opt rest
        | .ok component =>
          if component.kind ≠ ComponentKind.DesktopApplication then
            -- Skip anything that is not a desktop application
            parseYamlGo locale (doc_i + 1) origin_opt rest
          else
            let component := yamlAugment value component
            (component.id, AppInfo.new origin_opt component locale) ::
              parseYamlGo locale (doc_i + 1) origin_opt rest

/-- `appstream_cache.rs::AppstreamCache::parse_yaml`: every per-document
failure is logged and skipped, so the function as a whole always returns
`Ok`. -/
def parse_yaml (docs : List YamlDoc) (locale : String) :
    Except String (List (String × AppInfo)) :=
  Except.ok (parseYamlGo locale 0 none docs)

/-- What `load_original`'s per-path closure finds at one registered path:
the early-exit failures (no file name, non-UTF-8 name, open failure,
unknown suffix) or the payload handed to `parse_xml` / `parse_yaml`
(gzip-compressed and plain suffixes both land in these two cases). -/
inductive PathOutcome where
  | noFileName
  | notUtf8
  | openErr
  | unknownType
  | xml (root : Except String XMLElement)
  | yaml (docs : List YamlDoc)

/-- Per-path closure of `load_original`'s parallel `filter_map`: a parse
failure is logged and yields `None` for that path. -/
def processPath (locale : String) : PathOutcome → Option (List (String × AppInfo))
  | .noFileName => none
  | .notUtf8 => none
  | .openErr => none
  | .unknownType => none
  | .xml root =>
    match parse_xml root locale with
    | .ok infos => some infos
    | .error _ => none
  | .yaml docs =>
    match parse_yaml docs locale with
    | .ok infos => some infos
    | .error _ => none

/-- One step of `load_original`'s sequential aggregation loop over a parsed
`(id, info)` pair: record the id under its pkgname (if any), then insert
into `infos`; when the insert returns a previous value a duplicate is
logged (returned as `some id` here). -/
def aggregateStep (infos : List (String × AppInfo))
    (pkgnames : List (String × List String)) (id : String) (info : AppInfo) :
    List (String × AppInfo) × List (String × List String) × Option String :=
  let pkgnames :=
    match info.pkgname with
    | some pkgname =>
      let set := (mapLookup pkgnames pkgname).getD []
      (mapInsert pkgnames pkgname (setInsert set id)).1
    | none => pkgnames
  let (infos, old) := mapInsert infos id info
  match old with
  | some _old => (infos, pkgnames, some id)
  | none => (infos, pkgnames, none)

/-- The aggregation loop of `load_original`, folded over all parsed pairs
in file-arrival order; also collects the logged duplicate ids. -/
def aggregate (infos : List (String × AppInfo))
    (pkgnames : List (String × List String)) (dups : List String) :
    List (String × AppInfo) →
    List (String × AppInfo) × List (String × List String) × List String
  | [] => (infos, pkgnames, dups)
  | (id, info) :: rest =>
    let (infos, pkgnames, dup) := aggregateStep infos pkgnames id info
    aggregate infos pkgnames
      (match dup with
       | some d => dups ++ [d]
       | none => dups) rest

/-- `appstream_cache.rs::AppstreamCache::load_original`: clear `infos` and
`pkgnames`, parse every registered path (per-path failures dropped), then
aggregate sequentially.  Returns the new state together with the list of
logged duplicate ids. -/
def load_original (self : AppstreamCache) (paths : List PathOutcome) :
    AppstreamCache × List String :=
  let path_results := paths.filterMap (processPath self.locale)
  let (infos, pkgnames, dups) := aggregate [] [] [] path_results.flatten
  ({ self with infos := infos, pkgnames := pkgnames }, dups)

/-- What `load_cache` gets back from `fs::read` + `bitcode::decode`:
the cache directory may be unavailable, the read or the decode may fail,
or a decoded `AppstreamCache` is produced. -/
inductive CacheRead where
  | noCacheDir
  | readErr
  | decodeErr
  | ok (cache : AppstreamCache)

/-- `appstream_cache.rs::AppstreamCache::load_cache`: returns `true` and
adopts the decoded `infos`/`pkgnames` only when the read and decode
succeed, the decoded `path_tags` equal the current ones, and the decoded
locale equals the current one; every other branch returns `false` with the
state untouched. -/
def load_cache (self : AppstreamCache) (read : CacheRead) :
    Bool × AppstreamCache :=
  match read with
  | .noCacheDir => (false, self)
  | .readErr => (false, self)
  | .decodeErr => (false, self)
  | .ok cache =>
    if cache.path_tags ≠ self.path_tags then (false, self)
    else if cache.locale ≠ self.locale then (false, self)
    else
      (true, { self with infos := cache.infos, pkgnames := cache.pkgnames })

/-- The externally visible steps `reload` can take, in order. -/
inductive ReloadAction where
  | cleanedCache
  | loadedOriginal
  | savedCache
deriving DecidableEq

/-- `appstream_cache.rs::AppstreamCache::reload`: clean the cache
directory, try `load_cache`, and only on failure run `load_original`
followed by `save_cache`.  `clean_cache` and `save_cache` touch only the
filesystem, so here they contribute only trace actions. -/
def reload (self : AppstreamCache) (read : CacheRead)
    (paths : List PathOutcome) : AppstreamCache × List ReloadAction :=
  let (loaded, self) := load_cache self read
  if loaded then (self, [ReloadAction.cleanedCache])
  else
    let (self, _dups) := load_original self paths
    (self,
      [ReloadAction.cleanedCache, ReloadAction.loadedOriginal,
       ReloadAction.savedCache])

/-- Whether an `AppIcon` is a `Stock` entry. -/
def AppIcon.isStock : AppIcon → Bool
  | .Stock _ => true
  | .Cached _ _ _ _ => false

/-- The name of the last `Stock` entry of an icon list, when one exists. -/
def lastStockName : List AppIcon → Option String
  | [] => none
  | .Stock s :: rest =>
    match lastStockName rest with
    | some t => some t
    | none => some s
  | .Cached _ _ _ _ :: rest => lastStockName rest

/-- Whether an icon entry yields nothing on its own: a `Cached` entry whose
`icon_path` lookup fails (no origin, missing dimension, or no existing
file), or any `Stock` entry. -/
def cachedFails (is_file : String → Bool) (self : AppstreamCache)
    (info : AppInfo) : AppIcon → Bool
  | .Cached name width height scale =>
    (icon_path is_file self info.origin_opt name width height scale).isNone
  | .Stock _ => true

/-- The value paired with the last occurrence of `id` in a list of parsed
`(identifier, Record)` pairs. -/
def lastValue (id : String) : List (String × AppInfo) → Option AppInfo
  | [] => none
  | (k, v) :: rest =>
    match lastValue id rest with
    | some w => some w
    | none => if k = id then some v else none

/-- The keys of an association-list map. -/
def mapKeys {α : Type} (m : List (String × α)) : List String :=
  m.map Prod.fst

/-- Concrete cache state used by the concrete-input theorems: one icon
theme root, locale `en`, empty index. -/
def exCache : AppstreamCache :=
  { path_tags := [], icons_paths := ["root"], locale := "en", infos := [],
    pkgnames := [] }

/-- A translatable string with only a default entry, `A`. -/
def exNameA : TranslatableString :=
  { get_for_locale := fun _ => none, get_default := some "A" }

/-- A translatable string with only a default entry, `B`. -/
def exNameB : TranslatableString :=
  { get_for_locale := fun _ => none, get_default := some "B" }

/-- A desktop-application component with id `org.example.App`, name `A`
and pkgname `pkg`. -/
def exComponentA : Component :=
  { id := "org.example.App", kind := ComponentKind.DesktopApplication,
    name := exNameA, summary := none, pkgname := some "pkg", icons := [],
    launchables := [] }

/-- A second desktop-application component with the same id
`org.example.App` but name `B` and no pkgname. -/
def exComponentB : Component :=
  { id := "org.example.App", kind := ComponentKind.DesktopApplication,
    name := exNameB, summary := none, pkgname := none, icons := [],
    launchables := [] }

/-- An XML collection root carrying `exComponentA`. -/
def exRootA : XMLElement :=
  { attributes := [("version", "0.16")],
    children := [XMLNode.element "component" (Except.ok exComponentA)] }

/-- An XML collection root carrying `exComponentB`. -/
def exRootB : XMLElement :=
  { attributes := [("version", "0.16")],
    children := [XMLNode.element "component" (Except.ok exComponentB)] }

/-- A record with two cached icon entries of equal size 64. -/
def exInfoEqualSize : AppInfo :=
  { origin_opt := some "orig", name := "", summary := "", pkgname := none,
    icons := [AppIcon.Cached "a" (some 64) (some 64) none,
              AppIcon.Cached "b" (some 64) (some 64) none],
    desktop_ids := [] }

/-- A filesystem on which both equal-size cached icon files exist. -/
def exFsEqualSize : String → Bool := fun p =>
  p == "root/orig/64x64/a" || p == "root/orig/64x64/b"

/-- A record with a zero-size cached entry followed by a stock entry. -/
def exInfoZeroSize : AppInfo :=
  { origin_opt := some "orig", name := "", summary := "", pkgname := none,
    icons := [AppIcon.Cached "a" (some 0) (some 64) none, AppIcon.Stock "s"],
    desktop_ids := [] }

/-- A filesystem on which only the zero-size cached icon file exists. -/
def exFsZeroSize : String → Bool := fun p => p == "root/orig/0x64/a"

/-- The spec's icon tie-break example record: `Cached(a,32,32)`,
`Cached(b,64,64)`, `Stock(fallback)`. -/
def exInfoTieExample : AppInfo :=
  { origin_opt := some "orig", name := "", summary := "", pkgname := none,
    icons := [AppIcon.Cached "a" (some 32) (some 32) none,
              AppIcon.Cached "b" (some 64) (some 64) none,
              AppIcon.Stock "fallback"],
    desktop_ids := [] }

/-- A filesystem on which only the 64x64 icon file exists. -/
def exFsOnly64 : String → Bool := fun p => p == "root/orig/64x64/b"

/-- A record whose cached entry cannot resolve, followed by two stock
entries. -/
def exInfoStocks : AppInfo :=
  { origin_opt := some "orig", name := "", summary := "", pkgname := none,
    icons := [AppIcon.Cached "a" (some 32) (some 32) none,
              AppIcon.Stock "s1", AppIcon.Stock "s2"],
    desktop_ids := [] }

/-- A filesystem with no files at all. -/
def exFsNone : String → Bool := fun _ => false

/-! ## Helper lemmas on the association-list maps -/

theorem mapLookup_mapInsert {α : Type} (m : List (String × α)) (k k' : String)
    (v : α) :
    mapLookup (mapInsert m k v).1 k' =
      if k = k' then some v else mapLookup m k' := by
  induction m with
  | nil =>
    simp only [mapInsert, mapLookup]
  | cons hd tl ih =>
    obtain ⟨k0, v0⟩ := hd
    by_cases h0 : k0 = k
    · subst h0
      simp only [mapInsert, if_pos rfl, mapLookup]
      by_cases h1 : k0 = k' <;> simp [h1]
    · simp only [mapInsert, if_neg h0, mapLookup]
      by_cases h1 : k0 = k'
      · subst h1
        have : ¬ k = k0 := fun h => h0 h.symm
        simp [this]
      · simp [h1, ih]

theorem mapInsert_snd {α : Type} (m : List (String × α)) (k : String) (v : α) :
    (mapInsert m k v).2 = mapLookup m k := by
  induction m with
  | nil => simp [mapInsert, mapLookup]
  | cons hd tl ih =>
    obtain ⟨k0, v0⟩ := hd
    by_cases h0 : k0 = k
    · subst h0
      simp [mapInsert, mapLookup]
    · simp [mapInsert, mapLookup, h0, ih]

theorem mapKeys_mapInsert {α : Type} (m : List (String × α)) (k : String)
    (v : α) :
    mapKeys (mapInsert m k v).1 =
      if (mapLookup m k).isSome then mapKeys m else mapKeys m ++ [k] := by
  induction m with
  | nil => simp [mapInsert, mapLookup, mapKeys]
  | cons hd tl ih =>
    obtain ⟨k0, v0⟩ := hd
    by_cases h0 : k0 = k
    · subst h0
      simp [mapInsert, mapLookup, mapKeys]
    · simp only [mapInsert, if_neg h0, mapLookup, mapKeys, List.map_cons]
      by_cases h1 : (mapLookup tl k).isSome
      · simp only [mapKeys] at ih
        simp [h0, h1, ih]
      · simp only [mapKeys] at ih
        simp [h0, h1, ih]

theorem mapLookup_eq_none_iff {α : Type} (m : List (String × α)) (k : String) :
    mapLookup m k = none ↔ k ∉ mapKeys m := by
  induction m with
  | nil => simp [mapLookup, mapKeys]
  | cons hd tl ih =>
    obtain ⟨k0, v0⟩ := hd
    by_cases h0 : k0 = k
    · subst h0
      simp [mapLookup, mapKeys]
    · rw [mapLookup, if_neg h0, ih]
      show _ ↔ k ∉ k0 :: mapKeys tl
      simp only [List.mem_cons, not_or]
      constructor
      · intro hk
        exact ⟨fun h => h0 h.symm, hk⟩
      · intro hk
        exact hk.2

theorem mapKeys_mapInsert_nodup {α : Type} (m : List (String × α))
    (k : String) (v : α) (h : (mapKeys m).Nodup) :
    (mapKeys (mapInsert m k v).1).Nodup := by
  rw [mapKeys_mapInsert]
  by_cases h1 : (mapLookup m k).isSome
  · simpa [h1]
  · have hk : k ∉ mapKeys m := by
      rw [← mapLookup_eq_none_iff]
      exact Option.not_isSome_iff_eq_none.mp h1
    simp [h1, List.nodup_append, h, hk]

/-! ## Helper lemmas on the aggregation loop -/

theorem aggregateStep_fst (infos : List (String × AppInfo))
    (pk : List (String × List String)) (id : String) (info : AppInfo) :
    (aggregateStep infos pk id info).1 = (mapInsert infos id info).1 := by
  unfold aggregateStep
  rcases h : mapInsert infos id info with ⟨i', old⟩
  cases old <;> simp [h]

theorem aggregateStep_pkg (infos : List (String × AppInfo))
    (pk : List (String × List String)) (id : String) (info : AppInfo) :
    (aggregateStep infos pk id info).2.1 =
      match info.pkgname with
      | some pkgname =>
        (mapInsert pk pkgname
          (setInsert ((mapLookup pk pkgname).getD []) id)).1
      | none => pk := by
  unfold aggregateStep
  rcases h : mapInsert infos id info with ⟨i', old⟩
  cases old <;> cases info.pkgname <;> simp [h]

theorem aggregateStep_dup (infos : List (String × AppInfo))
    (pk : List (String × List String)) (id : String) (info : AppInfo) :
    (aggregateStep infos pk id info).2.2 =
      if (mapLookup infos id).isSome then some id else none := by
  unfold aggregateStep
  rcases h : mapInsert infos id info with ⟨i', old⟩
  have hold : old = mapLookup infos id := by
    rw [← mapInsert_snd infos id info, h]
  cases old <;> simp [h, ← hold]

theorem aggregate_cons (infos : List (String × AppInfo))
    (pk : List (String × List String)) (dups : List String) (id : String)
    (info : AppInfo) (rest : List (String × AppInfo)) :
    aggregate infos pk dups ((id, info) :: rest) =
      aggregate (aggregateStep infos pk id info).1
        (aggregateStep infos pk id info).2.1
        (match (aggregateStep infos pk id info).2.2 with
         | some d => dups ++ [d]
         | none => dups) rest := by
  rcases h : aggregateStep infos pk id info with ⟨a, b, c⟩
  conv_lhs => rw [aggregate]
  rw [h]

theorem aggregate_lookup (pairs : List (String × AppInfo)) :
    ∀ (infos : List (String × AppInfo)) (pk : List (String × List String))
      (dups : List String) (id : String),
      mapLookup (aggregate infos pk dups pairs).1 id =
        match lastValue id pairs with
        | some v => some v
        | none => mapLookup infos id := by
  induction pairs with
  | nil => intro infos pk dups id; simp [aggregate, lastValue]
  | cons hd rest ih =>
    obtain ⟨k, v⟩ := hd
    intro infos pk dups id
    rw [aggregate_cons, ih, aggregateStep_fst]
    cases hlv : lastValue id rest with
    | some w => simp [lastValue, hlv]
    | none =>
      by_cases hk : k = id <;>
        simp [lastValue, hlv, hk, mapLookup_mapInsert]

theorem aggregate_nodup (pairs : List (String × AppInfo)) :
    ∀ (infos : List (String × AppInfo)) (pk : List (String × List String))
      (dups : List String),
      (mapKeys infos).Nodup →
      (mapKeys (aggregate infos pk dups pairs).1).Nodup := by
  induction pairs with
  | nil => intro infos pk dups h; simpa [aggregate] using h
  | cons hd rest ih =>
    obtain ⟨k, v⟩ := hd
    intro infos pk dups h
    rw [aggregate_cons]
    apply ih
    rw [aggregateStep_fst]
    exact mapKeys_mapInsert_nodup _ _ _ h

theorem aggregate_dups (pairs : List (String × AppInfo)) :
    ∀ (infos : List (String × AppInfo)) (pk : List (String × List String))
      (dups : List String) (id : String),
      (id ∈ (aggregate infos pk dups pairs).2.2 ↔
        id ∈ dups ∨
          ((mapLookup infos id).isSome ∧ id ∈ pairs.map Prod.fst) ∨
          2 ≤ (pairs.map Prod.fst).count id) := by
  induction pairs with
  | nil => intro infos pk dups id; simp [aggregate]
  | cons hd rest ih =>
    obtain ⟨k, v⟩ := hd
    intro infos pk dups id
    rw [aggregate_cons, ih, aggregateStep_fst, aggregateStep_dup,
      mapLookup_mapInsert]
    have hmap : ((k, v) :: rest).map Prod.fst = k :: rest.map Prod.fst := rfl
    rw [hmap]
    have hmemcount : id ∈ rest.map Prod.fst ↔
        0 < (rest.map Prod.fst).count id := List.count_pos_iff.symm
    by_cases hk : k = id
    · subst hk
      rw [List.count_cons_self]
      by_cases hL : (mapLookup infos k).isSome
      · simp [hL]
      · simp only [hL, Bool.false_eq_true, if_false, reduceIte,
          Option.isSome_some, true_and, List.mem_cons, true_or]
        constructor
        · rintro (hd | hm | hc)
          · exact Or.inl hd
          · exact Or.inr (Or.inr (by have := hmemcount.mp hm; omega))
          · exact Or.inr (Or.inr (by omega))
        · rintro (hd | hm | hc)
          · exact Or.inl hd
          · exact hm.1.elim
          · exact Or.inr (Or.inl (hmemcount.mpr (by omega)))
    · have hik : id ≠ k := fun h => hk h.symm
      have hcnt : (k :: rest.map Prod.fst).count id =
          (rest.map Prod.fst).count id :=
        List.count_cons_of_ne hik _
      rw [hcnt]
      have hmem : id ∈ k :: rest.map Prod.fst ↔ id ∈ rest.map Prod.fst := by
        constructor
        · intro h
          rcases List.mem_cons.mp h with h | h
          · exact absurd h hik
          · exact h
        · exact fun h => List.mem_cons_of_mem _ h
      rw [hmem]
      have hdups : (id ∈ (match (if (mapLookup infos k).isSome = true
            then some k else none) with
          | some d => dups ++ [d]
          | none => dups)) ↔ id ∈ dups := by
        by_cases hL : (mapLookup infos k).isSome <;> simp [hL, hik]
      rw [hdups, if_neg hk]

theorem aggregate_pkg_invariant (pairs : List (String × AppInfo)) :
    ∀ (infos : List (String × AppInfo)) (pk : List (String × List String))
      (dups : List String),
      (∀ pkg s id, mapLookup pk pkg = some s → id ∈ s →
        (mapLookup infos id).isSome) →
      ∀ pkg s id,
        mapLookup (aggregate infos pk dups pairs).2.1 pkg = some s → id ∈ s →
        (mapLookup (aggregate infos pk dups pairs).1 id).isSome := by
  induction pairs with
  | nil =>
    intro infos pk dups h pkg s id hpk hid
    simp only [aggregate] at hpk ⊢
    exact h pkg s id hpk hid
  | cons hd rest ih =>
    obtain ⟨k, v⟩ := hd
    intro infos pk dups h
    rw [aggregate_cons]
    apply ih
    intro pkg s id hpk hid
    rw [aggregateStep_fst, mapLookup_mapInsert]
    by_cases hk : k = id
    · simp [hk]
    · rw [if_neg hk]
      rw [aggregateStep_pkg] at hpk
      cases hpn : v.pkgname with
      | none =>
        rw [hpn] at hpk
        exact h pkg s id hpk hid
      | some pkg0 =>
        rw [hpn] at hpk
        rw [mapLookup_mapInsert] at hpk
        by_cases hp : pkg0 = pkg
        · rw [if_pos hp] at hpk
          injection hpk with hs
          subst hs
          have hid' : id ∈ (mapLookup pk pkg0).getD [] := by
            unfold setInsert at hid
            by_cases hmem : k ∈ (mapLookup pk pkg0).getD []
            · rwa [if_pos hmem] at hid
            · rw [if_neg hmem] at hid
              rcases List.mem_append.mp hid with h1 | h1
              · exact h1
              · rcases List.mem_singleton.mp h1 with h2
                exact absurd h2.symm hk
          cases hset : mapLookup pk pkg0 with
          | none =>
            rw [hset] at hid'
            simp at hid'
          | some set0 =>
            rw [hset] at hid'
            exact h pkg0 set0 id hset hid'
        · rw [if_neg hp] at hpk
          exact h pkg s id hpk hid

/-! ## Helper lemmas on the icon resolution loop -/

theorem iconLoop_skip_stock (is_file : String → Bool)
    (self : AppstreamCache) (info : AppInfo) :
    ∀ (icons : List AppIcon) (icon_opt : Option IconHandle)
      (cached_size : Nat), 0 < cached_size →
      iconLoop is_file self info icon_opt cached_size icons =
        iconLoop is_file self info icon_opt cached_size
          (icons.filter fun i => ! i.isStock) := by
  intro icons
  induction icons with
  | nil => intro io cs h; rfl
  | cons hd rest ih =>
    intro io cs h
    cases hd with
    | Cached name w hgt s =>
      have hfilter :
          (AppIcon.Cached name w hgt s :: rest).filter (fun i => ! i.isStock)
            = AppIcon.Cached name w hgt s ::
                rest.filter (fun i => ! i.isStock) := by
        simp [List.filter_cons, AppIcon.isStock]
      rw [hfilter]
      by_cases hlt : min (w.getD 0) (hgt.getD 0) < cs
      · simp only [iconLoop, if_pos hlt]
        exact ih io cs h
      · simp only [iconLoop, if_neg hlt]
        cases hp : icon_path is_file self info.origin_opt name w hgt s with
        | some p =>
          exact ih _ _ (Nat.lt_of_lt_of_le h (Nat.le_of_not_lt hlt))
        | none => exact ih io cs h
    | Stock st =>
      have hne : cs ≠ 0 := Nat.pos_iff_ne_zero.mp h
      have hfilter :
          (AppIcon.Stock st :: rest).filter (fun i => ! i.isStock)
            = rest.filter (fun i => ! i.isStock) := by
        simp [List.filter_cons, AppIcon.isStock]
      rw [hfilter]
      simp only [iconLoop, if_pos hne]
      exact ih io cs h

theorem iconLoop_all_cached_fail (is_file : String → Bool)
    (self : AppstreamCache) (info : AppInfo) :
    ∀ (icons : List AppIcon) (icon_opt : Option IconHandle),
      (∀ i ∈ icons, cachedFails is_file self info i = true) →
      iconLoop is_file self info icon_opt 0 icons =
        match lastStockName icons with
        | some s => some (IconHandle.from_name s 128)
        | none => icon_opt := by
  intro icons
  induction icons with
  | nil => intro io h; rfl
  | cons hd rest ih =>
    intro io h
    cases hd with
    | Cached name w hgt s =>
      have hfail := h _ (List.mem_cons_self _ _)
      simp only [cachedFails] at hfail
      have hnone : icon_path is_file self info.origin_opt name w hgt s
          = none := by
        cases hp : icon_path is_file self info.origin_opt name w hgt s with
        | some p => rw [hp] at hfail; simp at hfail
        | none => rfl
      have hrest : ∀ i ∈ rest, cachedFails is_file self info i = true :=
        fun i hi => h i (List.mem_cons_of_mem _ hi)
      simp only [iconLoop, Nat.not_lt_zero, if_false, hnone, lastStockName]
      exact ih io hrest
    | Stock st =>
      have hrest : ∀ i ∈ rest, cachedFails is_file self info i = true :=
        fun i hi => h i (List.mem_cons_of_mem _ hi)
      have hne : ¬ ((0 : Nat) ≠ 0) := fun hc => hc rfl
      simp only [iconLoop, if_neg hne]
      rw [ih _ hrest]
      cases hr : lastStockName rest with
      | some t => simp [lastStockName, hr]
      | none => simp [lastStockName, hr]

/-! ## Claim theorems -/

/-- C7: For every component and requested locale, the record's name and
summary are each resolved to a single string as: the locale-specific
translation if present, else the declared default translation, else the
empty string; a component with neither translation yields an empty string
and a component with no summary field yields an empty summary. -/
theorem claim_C7_locale_fallback (origin_opt : Option String)
    (component : Component) (locale : String) :
    (AppInfo.new origin_opt component locale).name =
        (match component.name.get_for_locale locale with
         | some s => s
         | none =>
           match component.name.get_default with
           | some s => s
           | none => "") ∧
    (AppInfo.new origin_opt component locale).summary =
        (match component.summary with
         | none => ""
         | some t =>
           match t.get_for_locale locale with
           | some s => s
           | none =>
             match t.get_default with
             | some s => s
             | none => "") := by
  constructor
  · rfl
  · show (match component.summary with
        | some x => get_translatable x locale
        | none => "") = _
    cases component.summary <;> rfl

/-- C6: In both the XML path and the YAML path, a successfully decoded
component yields a record if and only if its kind is desktop application;
components of any other kind are silently excluded from the file's result
list. -/
theorem claim_C6_kind_filter (origin_opt : Option String) (locale : String)
    (component : Component) (value : Yaml) (k : Nat) (rest : List YamlDoc) :
    ((parseXmlChild origin_opt locale
        (XMLNode.element "component" (Except.ok component))).isSome ↔
      component.kind = ComponentKind.DesktopApplication) ∧
    parseYamlGo locale (k + 1) origin_opt
        (YamlDoc.ok value (Except.ok component) :: rest) =
      (if component.kind = ComponentKind.DesktopApplication then
        [((yamlAugment value component).id,
          AppInfo.new origin_opt (yamlAugment value component) locale)]
       else []) ++ parseYamlGo locale (k + 1 + 1) origin_opt rest := by
  constructor
  · unfold parseXmlChild
    by_cases h : component.kind = ComponentKind.DesktopApplication <;>
      simp [h]
  · have h0 : ¬ (k + 1 = 0) := Nat.succ_ne_zero k
    conv_lhs => rw [parseYamlGo]
    by_cases h : component.kind = ComponentKind.DesktopApplication <;>
      simp [h, h0]

/-- C2: load_cache returns true and adopts the decoded records and package
index if and only if the cache file is read and decoded successfully, the
decoded fingerprint registry equals the current registry and the decoded
locale equals the current locale; on any failure it returns false and
leaves the in-memory records and package index unchanged. -/
theorem claim_C2_load_cache (self : AppstreamCache) (read : CacheRead) :
    ((load_cache self read).1 = true ↔
      ∃ cache, read = CacheRead.ok cache ∧
        cache.path_tags = self.path_tags ∧ cache.locale = self.locale) ∧
    ((load_cache self read).1 = true →
      ∃ cache, read = CacheRead.ok cache ∧
        (load_cache self read).2 =
          { self with infos := cache.infos, pkgnames := cache.pkgnames }) ∧
    ((load_cache self read).1 = false → (load_cache self read).2 = self) := by
  cases read with
  | noCacheDir => simp [load_cache]
  | readErr => simp [load_cache]
  | decodeErr => simp [load_cache]
  | ok cache =>
    by_cases h1 : cache.path_tags = self.path_tags
    · by_cases h2 : cache.locale = self.locale
      · have hn1 : ¬ (cache.path_tags ≠ self.path_tags) := fun hc => hc h1
        have hn2 : ¬ (cache.locale ≠ self.locale) := fun hc => hc h2
        have heq : load_cache self (CacheRead.ok cache) =
            (true,
              { self with infos := cache.infos, pkgnames := cache.pkgnames })
            := by
          simp only [load_cache, if_neg hn1, if_neg hn2]
        rw [heq]
        refine ⟨?_, ?_, ?_⟩
        · exact ⟨fun _ => ⟨cache, rfl, h1, h2⟩, fun _ => rfl⟩
        · exact fun _ => ⟨cache, rfl, rfl⟩
        · intro hfalse
          exact absurd hfalse (by simp)
      · have hn1 : ¬ (cache.path_tags ≠ self.path_tags) := fun hc => hc h1
        have heq : load_cache self (CacheRead.ok cache) = (false, self) := by
          simp only [load_cache, if_neg hn1, if_pos h2]
        rw [heq]
        refine ⟨?_, ?_, ?_⟩
        · constructor
          · intro hfalse
            exact absurd hfalse (by simp)
          · rintro ⟨c, hc, _, hloc⟩
            injection hc with hc'
            subst hc'
            exact absurd hloc h2
        · intro hfalse
          exact absurd hfalse (by simp)
        · exact fun _ => rfl
    · have heq : load_cache self (CacheRead.ok cache) = (false, self) := by
        simp only [load_cache, if_pos h1]
      rw [heq]
      refine ⟨?_, ?_, ?_⟩
      · constructor
        · intro hfalse
          exact absurd hfalse (by simp)
        · rintro ⟨c, hc, hpt, _⟩
          injection hc with hc'
          subst hc'
          exact absurd hpt h1
      · intro hfalse
        exact absurd hfalse (by simp)
      · exact fun _ => rfl

/-- C3: reload first cleans the cache directory, then attempts load_cache;
load_original and the subsequent save_cache run if and only if load_cache
returned false, and after a successful cache load the parser is never
invoked and the cache file is not rewritten. -/
theorem claim_C3_reload (self : AppstreamCache) (read : CacheRead)
    (paths : List PathOutcome) :
    ((reload self read paths).2 =
      (if (load_cache self read).1 then [ReloadAction.cleanedCache]
       else [ReloadAction.cleanedCache, ReloadAction.loadedOriginal,
             ReloadAction.savedCache])) ∧
    ((reload self read paths).2.head? = some ReloadAction.cleanedCache) ∧
    (ReloadAction.loadedOriginal ∈ (reload self read paths).2 ↔
      (load_cache self read).1 = false) ∧
    (ReloadAction.savedCache ∈ (reload self read paths).2 ↔
      (load_cache self read).1 = false) ∧
    ((load_cache self read).1 = true →
      (reload self read paths).1 = (load_cache self read).2) ∧
    ((load_cache self read).1 = false →
      (reload self read paths).1 =
        (load_original (load_cache self read).2 paths).1) := by
  rcases h : load_cache self read with ⟨loaded, s⟩
  rcases ho : load_original s paths with ⟨s2, dups⟩
  cases loaded <;> simp [reload, h, ho]

/-- C8: XML parsing returns a hard parse error for the whole file when the
root collection element lacks a version attribute, and any per-file parse
failure yields zero records for that path only: records from the other
registered files are still produced. -/
theorem claim_C8_error_isolation (e : XMLElement) (locale : String)
    (self : AppstreamCache) (l1 l2 : List PathOutcome) (p : PathOutcome) :
    (mapLookup e.attributes "version" = none →
      parse_xml (Except.ok e) locale =
        Except.error "missing attribute version of collection") ∧
    (processPath self.locale p = none →
      load_original self (l1 ++ p :: l2) = load_original self (l1 ++ l2)) := by
  constructor
  · intro h
    simp [parse_xml, h]
  · intro h
    unfold load_original
    rw [List.filterMap_append, List.filterMap_cons, h,
      ← List.filterMap_append]

/-- C9: After load_original completes, every identifier appearing in any
identifier set of the package index exists as a key in the records map,
for every possible sequence of parsed pairs including duplicates. -/
theorem claim_C9_pkgnames_subset_infos (self : AppstreamCache)
    (paths : List PathOutcome) (pkg id : String) (s : List String)
    (hpk : mapLookup (load_original self paths).1.pkgnames pkg = some s)
    (hid : id ∈ s) :
    mapLookup (load_original self paths).1.infos id ≠ none := by
  rcases ha : aggregate [] [] []
      ((paths.filterMap (processPath self.locale)).flatten) with ⟨i, pk2, d⟩
  have hinfos : (load_original self paths).1.infos = i := by
    simp [load_original, ha]
  have hpkg : (load_original self paths).1.pkgnames = pk2 := by
    simp [load_original, ha]
  rw [hinfos]
  rw [hpkg] at hpk
  have hbase : ∀ pkg s id,
      mapLookup ([] : List (String × List String)) pkg = some s → id ∈ s →
      (mapLookup ([] : List (String × AppInfo)) id).isSome := by
    intro pkg s id h _
    simp [mapLookup] at h
  have hinv := aggregate_pkg_invariant
    ((paths.filterMap (processPath self.locale)).flatten) [] [] [] hbase
    pkg s id
  rw [ha] at hinv
  have := hinv hpk hid
  exact Option.isSome_iff_ne_none.mp this

/-- C9 witness: a concrete parse with pkgname `pkg` registering
`org.example.App` leaves that identifier present in the records map. -/
theorem claim_C9_witness :
    mapLookup (load_original exCache
        [PathOutcome.xml (Except.ok exRootA)]).1.infos "org.example.App"
      ≠ none :=
  claim_C9_pkgnames_subset_infos exCache [PathOutcome.xml (Except.ok exRootA)]
    "pkg" "org.example.App" ["org.example.App"] (by decide) (by decide)

/-- C1 counterexample: two sources both yielding identifier
`org.example.App` end with the SECOND record in the index, not the first:
`HashMap::insert` overwrites, so the later parse replaces the earlier one
(a duplicate is still logged). -/
theorem claim_C1_counterexample :
    mapLookup (load_original exCache
        [PathOutcome.xml (Except.ok exRootA),
         PathOutcome.xml (Except.ok exRootB)]).1.infos "org.example.App" =
      some (AppInfo.new none exComponentB "en") ∧
    AppInfo.new none exComponentB "en" ≠ AppInfo.new none exComponentA "en" ∧
    (load_original exCache
        [PathOutcome.xml (Except.ok exRootA),
         PathOutcome.xml (Except.ok exRootB)]).2 = ["org.example.App"] := by
  refine ⟨by decide, by decide, by decide⟩

/-- C1 amended: during aggregation in file-arrival order, an identifier
that occurs more than once keeps exactly one Record, namely the LAST one
encountered (the later parse overwrites the earlier one via
`HashMap::insert`), a duplicate is logged exactly when the identifier
occurs at least twice, and aggregation is total (never panics). -/
theorem claim_C1_last_wins (self : AppstreamCache) (paths : List PathOutcome)
    (id : String) :
    mapLookup (load_original self paths).1.infos id =
      lastValue id ((paths.filterMap (processPath self.locale)).flatten) ∧
    (mapKeys (load_original self paths).1.infos).Nodup ∧
    (id ∈ (load_original self paths).2 ↔
      2 ≤ (((paths.filterMap (processPath self.locale)).flatten.map
        Prod.fst).count id)) := by
  rcases ha : aggregate [] [] []
      ((paths.filterMap (processPath self.locale)).flatten) with ⟨i, pk2, d⟩
  have hinfos : (load_original self paths).1.infos = i := by
    simp [load_original, ha]
  have hdups : (load_original self paths).2 = d := by
    simp [load_original, ha]
  refine ⟨?_, ?_, ?_⟩
  · have hlk := aggregate_lookup
      ((paths.filterMap (processPath self.locale)).flatten) [] [] [] id
    rw [ha] at hlk
    rw [hinfos, hlk]
    cases lastValue id ((paths.filterMap (processPath self.locale)).flatten)
      with
    | none => simp [mapLookup]
    | some v => rfl
  · have hnd := aggregate_nodup
      ((paths.filterMap (processPath self.locale)).flatten) [] [] []
      (by simp [mapKeys])
    rw [ha] at hnd
    rw [hinfos]
    exact hnd
  · have hdp := aggregate_dups
      ((paths.filterMap (processPath self.locale)).flatten) [] [] [] id
    rw [ha] at hdp
    rw [hdups]
    simpa [mapLookup] using hdp

/-- C4 counterexample: two resolvable cached candidates of equal size 64;
the resolver returns the SECOND one's path — a later candidate of equal
size does replace the current best match. -/
theorem claim_C4_counterexample :
    icon_path exFsEqualSize exCache (some "orig") "a" (some 64) (some 64)
        none = some "root/orig/64x64/a" ∧
    icon exFsEqualSize exCache exInfoEqualSize =
      IconHandle.from_path "root/orig/64x64/b" := by
  refine ⟨by decide, by decide⟩

/-- C4 amended: the icon resolver iterates the icon list in order,
tracking the best cached match by min(width, height) with a missing
dimension treated as 0; a Cached candidate whose size is strictly less
than the best size found so far is skipped, and a later resolvable
candidate of equal (or larger) size replaces the current best match —
ties go to the LAST-seen resolvable candidate, not the first. -/
theorem claim_C4_tie_goes_to_later (is_file : String → Bool)
    (self : AppstreamCache) (info : AppInfo) (icon_opt : Option IconHandle)
    (cached_size : Nat) (name : String) (width height scale : Option Nat)
    (rest : List AppIcon) :
    (min (width.getD 0) (height.getD 0) < cached_size →
      iconLoop is_file self info icon_opt cached_size
          (AppIcon.Cached name width height scale :: rest) =
        iconLoop is_file self info icon_opt cached_size rest) ∧
    (∀ p, cached_size ≤ min (width.getD 0) (height.getD 0) →
      icon_path is_file self info.origin_opt name width height scale =
        some p →
      iconLoop is_file self info icon_opt cached_size
          (AppIcon.Cached name width height scale :: rest) =
        iconLoop is_file self info (some (IconHandle.from_path p))
          (min (width.getD 0) (height.getD 0)) rest) := by
  constructor
  · intro h
    simp only [iconLoop, if_pos h]
  · intro p h hp
    have hnlt : ¬ (min (width.getD 0) (height.getD 0) < cached_size) :=
      Nat.not_lt.mpr h
    simp only [iconLoop, if_neg hnlt, hp]

/-- C5 counterexample: a Cached entry of size min(0,64)=0 resolves to an
existing file, yet the subsequent Stock entry is not skipped and replaces
the cached result (the stock guard tests `cached_size != 0`, not whether a
cached match exists). -/
theorem claim_C5_counterexample :
    icon_path exFsZeroSize exCache (some "orig") "a" (some 0) (some 64)
        none = some "root/orig/0x64/a" ∧
    icon exFsZeroSize exCache exInfoZeroSize =
      IconHandle.from_name "s" 128 := by
  refine ⟨by decide, by decide⟩

/-- C5 amended: a Stock entry is considered only while the tracked cached
size is 0; once a Cached entry of positive min(width,height) has resolved,
every subsequent Stock entry is skipped entirely and the cached result is
never replaced by stock (a resolved cached match of size 0 does not block
stock). The spec's example Cached(a,32,32), Cached(b,64,64),
Stock(fallback) with only the 64x64 file on disk resolves to the cached
64x64 icon. -/
theorem claim_C5_stock_skipped_after_positive_cached
    (is_file : String → Bool) (self : AppstreamCache) (info : AppInfo)
    (icon_opt : Option IconHandle) (cached_size : Nat)
    (icons : List AppIcon) :
    (0 < cached_size →
      iconLoop is_file self info icon_opt cached_size icons =
        iconLoop is_file self info icon_opt cached_size
          (icons.filter fun i => ! i.isStock)) ∧
    icon exFsOnly64 exCache exInfoTieExample =
      IconHandle.from_path "root/orig/64x64/b" := by
  constructor
  · exact iconLoop_skip_stock is_file self info icons icon_opt cached_size
  · decide

/-- C10: while no Cached entry has resolved, each Stock entry overwrites
the previously selected icon: if every Cached entry fails to resolve and
the list contains at least one Stock entry, the resolver returns the
themed lookup at size 128 for the LAST Stock entry in list order. -/
theorem claim_C10_last_stock_wins (is_file : String → Bool)
    (self : AppstreamCache) (info : AppInfo) (s : String)
    (hfail : ∀ i ∈ info.icons, cachedFails is_file self info i = true)
    (hlast : lastStockName info.icons = some s) :
    icon is_file self info = IconHandle.from_name s 128 := by
  unfold icon
  rw [iconLoop_all_cached_fail is_file self info info.icons none hfail,
    hlast]
  rfl

/-- C10 witness: with no files on disk, a record with one unresolvable
cached entry and stock entries `s1`, `s2` resolves to the themed lookup
for `s2`. -/
theorem claim_C10_witness :
    icon exFsNone exCache exInfoStocks = IconHandle.from_name "s2" 128 :=
  claim_C10_last_stock_wins exFsNone exCache exInfoStocks "s2" (by decide)
    (by decide)

end CosmicStore
